import Mathlib

/-!
Shallow embedding of the userli-mailbox-janitor daemon.

Go strings are modelled as `List Char`; `time.Time` values as `Int`
nanoseconds since the epoch; `time.Duration` likewise in nanoseconds.
Fallible Go methods returning `error` are modelled with `Except`.
-/

set_option linter.unusedVariables false

/-! ## Validator (worker.go, `validateEmail`) -/

/-- The doveadm wildcard characters checked by
`strings.ContainsAny(email, "*?")`. -/
def wildcardChars : List Char := ['*', '?']

/-- The shell metacharacters checked by the second ContainsAny call in
validateEmail: semicolon, pipe, ampersand, dollar, backtick (code 96),
backslash, double quote (34), single quote (39), angle brackets,
parentheses, braces (123/125), square brackets, bang, space, newline,
carriage return, tab. -/
def forbiddenChars : List Char :=
  [';', '|', '&', '$', Char.ofNat 96, '\\', Char.ofNat 34, Char.ofNat 39,
   '<', '>', '(', ')', Char.ofNat 123, Char.ofNat 125, '[', ']', '!',
   ' ', '\n', '\r', '\t']

/-- Model of Go `strings.ContainsAny(s, set)`: true when any char of
`set` occurs in `s`. -/
def containsAny (s set : List Char) : Bool :=
  s.any fun c => set.contains c

/-- Model of Go `strings.Count(email, "@")` for the single-character
separator: the number of occurrences of `c` in `s`. -/
def countChar (s : List Char) (c : Char) : Nat :=
  (s.filter fun x => x == c).length

/-- Result of `validateEmail`: `ok` models a nil error, the other
constructors the four distinct `ErrInvalidEmail` wraps. -/
inductive ValidateResult
  | ok
  | emptyEmail
  | wildcard
  | badFormat
  | forbidden
deriving DecidableEq, Repr

/-- `validateEmail` from worker.go: empty check, wildcard check,
exactly-one-`@` check, shell-metacharacter check, in source order. -/
def validateEmail (email : List Char) : ValidateResult :=
  if email = [] then .emptyEmail
  else if containsAny email wildcardChars then .wildcard
  else if countChar email '@' ≠ 1 then .badFormat
  else if containsAny email forbiddenChars then .forbidden
  else .ok

/-! ## PendingStore, record level (database.go: Mailbox, AddMailbox,
GetDueMailboxes, RemoveMailbox)

The CSV file read/write round-trip is modelled separately below; at
this level the store is the list of parsed `Mailbox` records, in file
order, as `readAll` produces it. -/

/-- A mailbox entry: email and CreatedAt (Int nanoseconds). -/
structure Mailbox where
  email : List Char
  createdAt : Int
deriving DecidableEq, Repr

/-- Nanoseconds per hour: `time.Duration(retentionHours) * time.Hour`
multiplies the hour count by this factor. -/
def nsPerHour : Int := 3600000000000

/-- Error result of a store mutation; `alreadyExists` models the
"mailbox already exists" error of AddMailbox. -/
inductive DbError
  | alreadyExists
deriving DecidableEq, Repr

/-- `AddMailbox`: reject when any existing record has the same email,
otherwise append a record stamped with the current time. -/
def AddMailbox (s : List Mailbox) (email : List Char) (now : Int) :
    Except DbError (List Mailbox) :=
  if s.any fun m => m.email == email then .error .alreadyExists
  else .ok (s ++ [⟨email, now⟩])

/-- Store state after an `AddMailbox` call: on error the method returns
before `writeAll`, so the store is unchanged. -/
def runAdd (s : List Mailbox) (email : List Char) (now : Int) : List Mailbox :=
  match AddMailbox s email now with
  | .ok s2 => s2
  | .error _ => s

/-- `GetDueMailboxes`: keep the records whose CreatedAt is Before or
Equal the cutoff `now - retentionHours * Hour`. -/
def GetDueMailboxes (s : List Mailbox) (retentionHours now : Int) :
    List Mailbox :=
  s.filter fun m => m.createdAt ≤ now - retentionHours * nsPerHour

/-- `RemoveMailbox`: write back every record whose email differs; the
method never reports a not-found error. -/
def RemoveMailbox (s : List Mailbox) (email : List Char) :
    Except DbError (List Mailbox) :=
  .ok (s.filter fun m => m.email != email)

/-- Store state after a `RemoveMailbox` call. -/
def runRemove (s : List Mailbox) (email : List Char) : List Mailbox :=
  match RemoveMailbox s email with
  | .ok s2 => s2
  | .error _ => s

/-! ## Worker (worker.go: purgeMailbox, processSingleMailbox,
processDueMailboxes)

The external `doveadm purge` invocation is a parameter
`exec : List Char → Bool` (true = the command exited successfully).
Besides the store, the state records the trace of emails for which the
command was invoked (`purged`) and for which `RemoveMailbox` was called
(`removed`). -/

/-- Worker-visible state: the store plus the invocation traces. -/
structure WorkerState where
  store : List Mailbox
  purged : List (List Char)
  removed : List (List Char)
deriving DecidableEq, Repr

/-- `processSingleMailbox` composed with `purgeMailbox`:
`purgeMailbox` re-validates the email and returns an error before
building the command when validation fails; on a command failure
`processSingleMailbox` returns before `RemoveMailbox`; on success it
calls `RemoveMailbox`. -/
def processSingleMailbox (exec : List Char → Bool) (st : WorkerState)
    (mb : Mailbox) : WorkerState :=
  if validateEmail mb.email = .ok then
    if exec mb.email then
      ⟨runRemove st.store mb.email, st.purged ++ [mb.email],
        st.removed ++ [mb.email]⟩
    else
      ⟨st.store, st.purged ++ [mb.email], st.removed⟩
  else st

/-- `processDueMailboxes`: fetch the due list once, then process each
entry in order; a per-entry failure only logs and moves on. -/
def processDueMailboxes (exec : List Char → Bool)
    (retentionHours now : Int) (st : WorkerState) : WorkerState :=
  (GetDueMailboxes st.store retentionHours now).foldl
    (processSingleMailbox exec) st

/-! ## HTTP handler (server.go: handleUserliEvent, handleUserDeleted)

The event is modelled post-JSON-decode; authentication (the HMAC
middleware) has already passed when these run. -/

/-- A decoded userli webhook event. -/
structure UserEvent where
  type : List Char
  email : List Char
deriving DecidableEq, Repr

/-- The `user.deleted` event type constant. -/
def EventTypeUserDeleted : List Char := "user.deleted".toList

/-- HTTP status plus resulting store state. -/
structure HttpResult where
  status : Nat
  store : List Mailbox
deriving DecidableEq, Repr

/-- `handleUserDeleted`: validate the email first; on failure log and
return without touching the store; otherwise call AddMailbox (whose
error is also only logged). -/
def handleUserDeleted (s : List Mailbox) (email : List Char) (now : Int) :
    List Mailbox :=
  if validateEmail email = .ok then runAdd s email now else s

/-- `handleUserliEvent`: dispatch on the event type; a `user.deleted`
event always ends with `WriteHeader(200)`, any other type gets 400. -/
def handleUserliEvent (s : List Mailbox) (ev : UserEvent) (now : Int) :
    HttpResult :=
  if ev.type = EventTypeUserDeleted then
    ⟨200, handleUserDeleted s ev.email now⟩
  else ⟨400, s⟩

/-! ## PendingStore, file level (database.go: readAll, writeAll,
initFile, and the file-facing AddMailbox / RemoveMailbox)

A CSV record as produced by `encoding/csv.Reader.ReadAll` is a list of
fields. The RFC3339 parse (`time.Parse`) and format
(`CreatedAt.Format`) of timestamps are parameters `parse` / `fmt`;
concrete model instances for witnesses render timestamps as decimal
strings. -/

/-- One CSV record: its fields. -/
abbrev RawRecord := List (List Char)

/-- The header record written by initFile and writeAll. -/
def headerRecord : RawRecord := ["email".toList, "created_at".toList]

/-- `readAll`: skip the header (index 0), skip records with fewer than
two fields, skip records whose second field fails to parse, keep the
rest in file order. -/
def readAll (parse : List Char → Option Int) (file : List RawRecord) :
    List Mailbox :=
  (file.drop 1).filterMap fun r =>
    match r with
    | e :: t :: _ => (parse t).map fun ts => ⟨e, ts⟩
    | _ => none

/-- `writeAll`: truncate and rewrite the whole file — header first,
then one two-field record per mailbox. -/
def writeAll (fmt : Int → List Char) (ms : List Mailbox) :
    List RawRecord :=
  headerRecord :: ms.map fun m => [m.email, fmt m.createdAt]

/-- File-level `AddMailbox`: read, duplicate-check over the parsed
records, append, rewrite the whole file. -/
def AddMailboxFile (parse : List Char → Option Int)
    (fmt : Int → List Char) (file : List RawRecord)
    (email : List Char) (now : Int) : Except DbError (List RawRecord) :=
  let ms := readAll parse file
  if ms.any fun m => m.email == email then .error .alreadyExists
  else .ok (writeAll fmt (ms ++ [⟨email, now⟩]))

/-- File state after a file-level `AddMailbox` call (on error the
method returns before `writeAll`). -/
def runAddFile (parse : List Char → Option Int)
    (fmt : Int → List Char) (file : List RawRecord)
    (email : List Char) (now : Int) : List RawRecord :=
  match AddMailboxFile parse fmt file email now with
  | .ok f2 => f2
  | .error _ => file

/-- File-level `RemoveMailbox`: read, filter out the named email,
rewrite the whole file. -/
def RemoveMailboxFile (parse : List Char → Option Int)
    (fmt : Int → List Char) (file : List RawRecord)
    (email : List Char) : Except DbError (List RawRecord) :=
  .ok (writeAll fmt ((readAll parse file).filter fun m => m.email != email))

/-- Model of `writeAll` interrupted mid-operation: `os.Create` has
already truncated the file, the header and records are written
sequentially, and the write fails after `k` records reached the disk —
the file then holds the first `k` records of the intended content. -/
def writeAllCrash (fmt : Int → List Char) (ms : List Mailbox) (k : Nat) :
    List RawRecord :=
  (writeAll fmt ms).take k

/-- File state after an `AddMailbox` whose `writeAll` fails after `k`
records: on the duplicate path no write is attempted, otherwise the
truncated prefix is what persists. -/
def AddMailboxCrash (parse : List Char → Option Int)
    (fmt : Int → List Char) (file : List RawRecord)
    (email : List Char) (now : Int) (k : Nat) : List RawRecord :=
  let ms := readAll parse file
  if ms.any fun m => m.email == email then file
  else writeAllCrash fmt (ms ++ [⟨email, now⟩]) k

/-- Concrete model timestamp format (stands in for RFC3339 rendering in
witnesses): decimal digits of the Int. -/
def fmtTime (t : Int) : List Char := (toString t).toList

/-- Accumulator pass of the model timestamp parse: all-digit strings
evaluate to their decimal value, anything else is unparsable. -/
def parseDigitsAux : List Char → Nat → Option Nat
  | [], acc => some acc
  | c :: rest, acc =>
    if c.isDigit then parseDigitsAux rest (acc * 10 + (c.toNat - 48))
    else none

/-- Concrete model timestamp parse, the partial inverse of `fmtTime`:
an optional minus sign (code 45) followed by a nonempty digit string;
anything else is unparsable. -/
def parseTime (s : List Char) : Option Int :=
  match s with
  | [] => none
  | c :: rest =>
    if c = Char.ofNat 45 then
      match rest with
      | [] => none
      | _ :: _ => (parseDigitsAux rest 0).map fun n => -(n : Int)
    else (parseDigitsAux s 0).map fun n => (n : Int)

/-! ## Checked CSV read layer

Go's encoding/csv Reader with the default FieldsPerRecord locks the
expected field count to the first record's count and `ReadAll` fails
the whole read with ErrFieldCount on any mismatch, returning no
records; `Database.readAll` propagates that error, so the mutating
operations return before any rewrite. `csvReadAll` models the csv
layer; `readAll` above is the per-record processing the Database
applies to a successfully read record list. -/

/-- Error of the csv layer: a record's field count differs from the
first record's. -/
inductive CsvError
  | errFieldCount
deriving DecidableEq, Repr

/-- encoding/csv `Reader.ReadAll` with the default FieldsPerRecord:
the first record fixes the expected field count; any mismatch fails the
whole read. -/
def csvReadAll (file : List RawRecord) : Except CsvError (List RawRecord) :=
  match file with
  | [] => .ok []
  | r0 :: rest =>
    if (r0 :: rest).all fun r => r.length == r0.length then .ok (r0 :: rest)
    else .error .errFieldCount

/-- `Database.readAll` with the csv layer made explicit: a failed
`ReadAll` is propagated; on success the usual per-record processing
runs on the records (which are the whole file). -/
def readAllChecked (parse : List Char → Option Int)
    (file : List RawRecord) : Except CsvError (List Mailbox) :=
  match csvReadAll file with
  | .error e => .error e
  | .ok records => .ok (readAll parse (records))

/-- Error of a checked file-level mutation: duplicate email, or a
propagated read failure. -/
inductive StoreError
  | alreadyExists
  | readFailed
deriving DecidableEq, Repr

/-- File-level `AddMailbox` over the checked read: a read failure is
returned at once (no rewrite), then duplicate check, then the whole
file is rewritten. -/
def AddMailboxFileChecked (parse : List Char → Option Int)
    (fmt : Int → List Char) (file : List RawRecord)
    (email : List Char) (now : Int) : Except StoreError (List RawRecord) :=
  match readAllChecked parse file with
  | .error _ => .error .readFailed
  | .ok ms =>
    if ms.any fun m => m.email == email then .error .alreadyExists
    else .ok (writeAll fmt (ms ++ [⟨email, now⟩]))

/-- File state after a checked `AddMailbox` call (on any error the
method returns before `writeAll`). -/
def runAddFileChecked (parse : List Char → Option Int)
    (fmt : Int → List Char) (file : List RawRecord)
    (email : List Char) (now : Int) : List RawRecord :=
  match AddMailboxFileChecked parse fmt file email now with
  | .ok f2 => f2
  | .error _ => file

/-- File-level `RemoveMailbox` over the checked read: a read failure is
returned at once (no rewrite), otherwise the file is rewritten without
the named email. -/
def RemoveMailboxFileChecked (parse : List Char → Option Int)
    (fmt : Int → List Char) (file : List RawRecord)
    (email : List Char) : Except StoreError (List RawRecord) :=
  match readAllChecked parse file with
  | .error _ => .error .readFailed
  | .ok ms => .ok (writeAll fmt (ms.filter fun m => m.email != email))

/-- File state after a checked `RemoveMailbox` call. -/
def runRemoveFileChecked (parse : List Char → Option Int)
    (fmt : Int → List Char) (file : List RawRecord)
    (email : List Char) : List RawRecord :=
  match RemoveMailboxFileChecked parse fmt file email with
  | .ok f3 => f3
  | .error _ => file

/-! ## Theorems -/

theorem containsAny_iff (s set : List Char) :
    containsAny s set = true ↔ ∃ c, c ∈ s ∧ c ∈ set := by
  simp [containsAny, List.any_eq_true]

/-- Characterisation of acceptance by `validateEmail`, shared by the
validator-facing results. -/
theorem validateEmail_eq_ok_iff (e : List Char) :
    validateEmail e = ValidateResult.ok ↔
      e ≠ [] ∧ '*' ∉ e ∧ '?' ∉ e ∧ countChar e '@' = 1 ∧
        ∀ c ∈ forbiddenChars, c ∉ e := by
  unfold validateEmail
  split_ifs with h1 h2 h3 h4
  · exact iff_of_false (fun h => nomatch h) (fun h => h.1 h1)
  · refine iff_of_false (fun h => nomatch h) (fun h => ?_)
    rcases (containsAny_iff e wildcardChars).mp h2 with ⟨c, hce, hcw⟩
    simp only [wildcardChars, List.mem_cons, List.mem_singleton,
      List.not_mem_nil, or_false] at hcw
    rcases hcw with rfl | rfl
    · exact h.2.1 hce
    · exact h.2.2.1 hce
  · exact iff_of_false (fun h => nomatch h) (fun h => h3 h.2.2.2.1)
  · refine iff_of_false (fun h => nomatch h) (fun h => ?_)
    rcases (containsAny_iff e forbiddenChars).mp h4 with ⟨c, hce, hcf⟩
    exact h.2.2.2.2 c hcf hce
  · refine iff_of_true rfl ⟨h1, ?_, ?_, not_ne_iff.mp h3, ?_⟩
    · exact fun hs => h2 ((containsAny_iff e wildcardChars).mpr
        ⟨'*', hs, by simp [wildcardChars]⟩)
    · exact fun hs => h2 ((containsAny_iff e wildcardChars).mpr
        ⟨'?', hs, by simp [wildcardChars]⟩)
    · exact fun c hcf hce => h4 ((containsAny_iff e forbiddenChars).mpr
        ⟨c, hce, hcf⟩)

/-- C1: `validateEmail` accepts an identifier iff it is non-empty,
contains neither `*` nor `?`, contains exactly one `@`, and contains no
character from the forbidden shell-metacharacter set; every identifier
violating any of these conditions is rejected. -/
theorem validateEmail_accepts_iff (e : List Char) :
    validateEmail e = ValidateResult.ok ↔
      e ≠ [] ∧ '*' ∉ e ∧ '?' ∉ e ∧ countChar e '@' = 1 ∧
        ∀ c ∈ forbiddenChars, c ∉ e :=
  validateEmail_eq_ok_iff e

/-- C10: every identifier made of allowed characters with exactly one
`@` — including degenerate two-part addresses such as the bare `@` — is
accepted by `validateEmail`, so it also passes the pre-purge re-check
inside `purgeMailbox` and the external purge command is invoked for
it. -/
theorem validateEmail_accepts_degenerate (e : List Char)
    (exec : List Char → Bool) (st : WorkerState) (t : Int)
    (h1 : countChar e '@' = 1) (h2 : '*' ∉ e) (h3 : '?' ∉ e)
    (h4 : ∀ c ∈ forbiddenChars, c ∉ e) :
    validateEmail e = ValidateResult.ok ∧
      (processSingleMailbox exec st ⟨e, t⟩).purged = st.purged ++ [e] := by
  have hne : e ≠ [] := by
    intro h
    rw [h] at h1
    simp [countChar] at h1
  have hok : validateEmail e = ValidateResult.ok :=
    (validateEmail_eq_ok_iff e).mpr ⟨hne, h2, h3, h1, h4⟩
  refine ⟨hok, ?_⟩
  by_cases hex : exec e
  · simp [processSingleMailbox, hok, hex]
  · simp [processSingleMailbox, hok, hex]

theorem validateEmail_accepts_degenerate_witness :
    validateEmail ['@'] = ValidateResult.ok ∧
      (processSingleMailbox (fun _ => true) ⟨[], [], []⟩
        ⟨['@'], 0⟩).purged = [] ++ [['@']] :=
  validateEmail_accepts_degenerate ['@'] (fun _ => true) ⟨[], [], []⟩ 0
    (by decide) (by decide) (by decide) (by decide)

/-- C3: the worker re-validates immediately before every purge: when an
entry's email fails `validateEmail`, `processSingleMailbox` leaves the
whole state unchanged — the command is not invoked, `RemoveMailbox` is
not called, and the entry stays in the store. -/
theorem purge_revalidates_before_exec (exec : List Char → Bool)
    (st : WorkerState) (mb : Mailbox)
    (h : validateEmail mb.email ≠ ValidateResult.ok) :
    processSingleMailbox exec st mb = st ∧
      (processSingleMailbox exec st mb).purged = st.purged ∧
      (processSingleMailbox exec st mb).removed = st.removed ∧
      (processSingleMailbox exec st mb).store = st.store := by
  have heq : processSingleMailbox exec st mb = st := by
    unfold processSingleMailbox
    rw [if_neg h]
  exact ⟨heq, by rw [heq], by rw [heq], by rw [heq]⟩

theorem purge_revalidates_before_exec_witness :
    processSingleMailbox (fun _ => true)
        ⟨[⟨"evil*@x".toList, 0⟩], [], []⟩ ⟨"evil*@x".toList, 0⟩ =
      ⟨[⟨"evil*@x".toList, 0⟩], [], []⟩ :=
  (purge_revalidates_before_exec (fun _ => true)
    ⟨[⟨"evil*@x".toList, 0⟩], [], []⟩ ⟨"evil*@x".toList, 0⟩
    (by decide)).1

/-- C7: `RemoveMailbox` never errors, removing an absent identifier is
a no-op success, and removing twice equals removing once. -/
theorem removeMailbox_idempotent (s : List Mailbox) (e : List Char) :
    (∃ s2, RemoveMailbox s e = Except.ok s2) ∧
    (∀ m, m ∈ runRemove s e ↔ m ∈ s ∧ m.email ≠ e) ∧
    ((∀ m ∈ s, m.email ≠ e) → RemoveMailbox s e = Except.ok s) ∧
    runRemove (runRemove s e) e = runRemove s e := by
  refine ⟨⟨_, rfl⟩, ?_, ?_, ?_⟩
  · intro m
    simp [runRemove, RemoveMailbox, List.mem_filter, bne_iff_ne]
  · intro h
    have hself : (s.filter fun m => m.email != e) = s := by
      rw [List.filter_eq_self]
      intro m hm
      simpa [bne_iff_ne] using h m hm
    simp [RemoveMailbox, hself]
  · simp [runRemove, RemoveMailbox, List.filter_filter, Bool.and_self]

theorem removeMailbox_idempotent_witness :
    RemoveMailbox [⟨"a@b".toList, 0⟩] ("c@d".toList) =
      Except.ok [⟨"a@b".toList, 0⟩] :=
  (removeMailbox_idempotent [⟨"a@b".toList, 0⟩] ("c@d".toList)).2.2.1
    (by decide)

/-- C6: after a first add of a fresh identifier at `t1`, a second add
of the same identifier at `t2` returns AlreadyExists, leaves the store
unchanged, and the store holds exactly one entry for that identifier,
stamped `t1`, not `t2`. -/
theorem addMailbox_duplicate_rejected (s : List Mailbox) (e : List Char)
    (t1 t2 : Int) (hfresh : ∀ m ∈ s, m.email ≠ e) :
    AddMailbox s e t1 = Except.ok (s ++ [⟨e, t1⟩]) ∧
    AddMailbox (s ++ [⟨e, t1⟩]) e t2 =
      Except.error DbError.alreadyExists ∧
    runAdd (s ++ [⟨e, t1⟩]) e t2 = s ++ [⟨e, t1⟩] ∧
    (runAdd (s ++ [⟨e, t1⟩]) e t2).filter (fun m => m.email == e) =
      [⟨e, t1⟩] := by
  have hany : (s.any fun m => m.email == e) = false := by
    rw [List.any_eq_false]
    intro m hm
    simpa [beq_iff_eq] using hfresh m hm
  have hany2 : ((s ++ [(⟨e, t1⟩ : Mailbox)]).any fun m => m.email == e) = true := by
    rw [List.any_eq_true]
    refine ⟨(⟨e, t1⟩ : Mailbox), ?_, ?_⟩ <;> simp
  have hnil : (s.filter fun m => m.email == e) = [] := by
    rw [List.filter_eq_nil_iff]
    intro m hm
    simpa [beq_iff_eq] using hfresh m hm
  refine ⟨?_, ?_, ?_, ?_⟩
  · simp [AddMailbox, hany]
  · simp [AddMailbox, hany2]
  · simp [runAdd, AddMailbox, hany2]
  · simp [runAdd, AddMailbox, hany2, List.filter_append, hnil]

theorem addMailbox_duplicate_rejected_witness :
    AddMailbox ([] ++ [⟨"a@b".toList, 0⟩]) ("a@b".toList) 1 =
      Except.error DbError.alreadyExists :=
  (addMailbox_duplicate_rejected [] ("a@b".toList) 0 1 (by decide)).2.1

/-- C5: `GetDueMailboxes` returns exactly the stored entries whose
CreatedAt is at or before `now - retentionHours * hour`; with window 0
a just-added entry is due; with a window larger than the elapsed time
it is not; when nothing is due the result is the empty list, not an
error. -/
theorem getDueMailboxes_spec (s : List Mailbox) (w now : Int)
    (m : Mailbox) (e : List Char) (t0 t1 w2 : Int) :
    (m ∈ GetDueMailboxes s w now ↔
       m ∈ s ∧ m.createdAt ≤ now - w * nsPerHour) ∧
    ((∀ x ∈ s, ¬ x.createdAt ≤ now - w * nsPerHour) →
       GetDueMailboxes s w now = []) ∧
    ((∀ x ∈ s, x.email ≠ e) → t0 ≤ t1 →
       (⟨e, t0⟩ : Mailbox) ∈ GetDueMailboxes (runAdd s e t0) 0 t1) ∧
    (t1 - w2 * nsPerHour < t0 →
       GetDueMailboxes (runAdd [] e t0) w2 t1 = []) := by
  refine ⟨?_, ?_, ?_, ?_⟩
  · simp [GetDueMailboxes, List.mem_filter]
  · intro h
    rw [GetDueMailboxes, List.filter_eq_nil_iff]
    intro x hx
    simpa using h x hx
  · intro hfresh hle
    have hany : (s.any fun x => x.email == e) = false := by
      rw [List.any_eq_false]
      intro x hx
      simpa [beq_iff_eq] using hfresh x hx
    rw [runAdd, AddMailbox, hany]
    simp only [Bool.false_eq_true, if_false]
    simp [GetDueMailboxes, List.mem_filter]
    omega
  · intro hlt
    rw [runAdd, AddMailbox]
    simp only [List.any_nil, Bool.false_eq_true, if_false]
    rw [GetDueMailboxes, List.filter_eq_nil_iff]
    intro x hx
    simp only [List.nil_append, List.mem_singleton] at hx
    subst hx
    simp
    omega

theorem getDueMailboxes_spec_witness :
    ((⟨"a@b".toList, (0 : Int)⟩ : Mailbox) ∈
       GetDueMailboxes (runAdd [] ("a@b".toList) 0) 0 5) ∧
    GetDueMailboxes (runAdd [] ("c@d".toList) 4) 1 5 = [] :=
  ⟨(getDueMailboxes_spec [] 0 5 ⟨"a@b".toList, 0⟩ ("a@b".toList) 0 5
      1).2.2.1 (by decide) (by decide),
   (getDueMailboxes_spec [] 0 5 ⟨"a@b".toList, 0⟩ ("c@d".toList) 4 5
      1).2.2.2 (by decide)⟩

/-- C2: once authenticated, a `user.deleted` event whose email fails
validation leaves the store untouched (so, if the identifier was not
already stored, no later `GetDueMailboxes` ever returns it) and the
handler still answers 200, exactly like an accepted request. -/
theorem ingest_invalid_silently_ok (s : List Mailbox) (ev : UserEvent)
    (now w t : Int) (htype : ev.type = EventTypeUserDeleted)
    (hinv : validateEmail ev.email ≠ ValidateResult.ok) :
    handleUserliEvent s ev now = ⟨200, s⟩ ∧
    (∀ s2 e2 n2,
      (handleUserliEvent s2 ⟨EventTypeUserDeleted, e2⟩ n2).status = 200) ∧
    ((∀ m ∈ s, m.email ≠ ev.email) →
       ∀ m ∈ GetDueMailboxes s w t, m.email ≠ ev.email) := by
  refine ⟨?_, ?_, ?_⟩
  · simp [handleUserliEvent, htype, handleUserDeleted, hinv]
  · intro s2 e2 n2
    simp [handleUserliEvent]
  · intro h m hm
    exact h m (List.mem_filter.mp hm).1

theorem ingest_invalid_silently_ok_witness :
    handleUserliEvent [] ⟨EventTypeUserDeleted, "bad".toList⟩ 0 =
      ⟨200, []⟩ :=
  (ingest_invalid_silently_ok [] ⟨EventTypeUserDeleted, "bad".toList⟩
    0 0 0 rfl (by decide)).1

/-- In one cycle the worker attempts the purge command for every valid
due entry, in order, regardless of earlier entries' outcomes. -/
theorem foldl_purged_trace (exec : List Char → Bool) (ds : List Mailbox)
    (st : WorkerState) :
    (ds.foldl (processSingleMailbox exec) st).purged =
      st.purged ++ (ds.filter fun m =>
        decide (validateEmail m.email = ValidateResult.ok)).map
        (fun m => m.email) := by
  induction ds generalizing st with
  | nil => simp
  | cons d ds ih =>
    rw [List.foldl_cons, ih]
    by_cases h : validateEmail d.email = ValidateResult.ok
    · by_cases hex : exec d.email
      · simp [processSingleMailbox, h, hex, List.filter_cons]
      · simp [processSingleMailbox, h, hex, List.filter_cons]
    · simp [processSingleMailbox, h, List.filter_cons]

/-- An entry whose purge command fails is never removed by the cycle,
whatever happens to the other entries. -/
theorem foldl_store_keeps (exec : List Char → Bool) (mb : Mailbox)
    (hex : exec mb.email = false) (ds : List Mailbox) (st : WorkerState)
    (hmem : mb ∈ st.store) :
    mb ∈ (ds.foldl (processSingleMailbox exec) st).store := by
  induction ds generalizing st with
  | nil => exact hmem
  | cons d ds ih =>
    rw [List.foldl_cons]
    apply ih
    by_cases h : validateEmail d.email = ValidateResult.ok
    · by_cases hexd : exec d.email
      · simp only [processSingleMailbox, h, if_true, hexd,
          runRemove, RemoveMailbox]
        simp only [List.mem_filter, bne_iff_ne]
        refine ⟨hmem, ?_⟩
        intro heq
        rw [heq] at hex
        rw [hex] at hexd
        exact Bool.noConfusion hexd
      · simpa [processSingleMailbox, h, hexd] using hmem
    · simpa [processSingleMailbox, h] using hmem

/-- C4: per due entry, independently: a successful command leads to
exactly one `RemoveMailbox` call for that email and its records leave
the store; a failed command leaves the store untouched, the entry keeps
its CreatedAt and is due again at any later tick; and one entry's
failure never stops the cycle — the command is still attempted for
every remaining valid due entry. -/
theorem cycle_per_entry_outcomes (exec : List Char → Bool)
    (st : WorkerState) (mb : Mailbox) (w now t2 : Int) :
    (validateEmail mb.email = ValidateResult.ok → exec mb.email = true →
       processSingleMailbox exec st mb =
         ⟨st.store.filter (fun m => m.email != mb.email),
          st.purged ++ [mb.email], st.removed ++ [mb.email]⟩) ∧
    (validateEmail mb.email = ValidateResult.ok → exec mb.email = false →
       processSingleMailbox exec st mb =
         ⟨st.store, st.purged ++ [mb.email], st.removed⟩) ∧
    ((processDueMailboxes exec w now st).purged =
       st.purged ++ ((GetDueMailboxes st.store w now).filter fun m =>
         decide (validateEmail m.email = ValidateResult.ok)).map
         (fun m => m.email)) ∧
    (exec mb.email = false → mb ∈ st.store →
       mb ∈ (processDueMailboxes exec w now st).store ∧
       (mb.createdAt ≤ now - w * nsPerHour → now ≤ t2 →
         mb ∈ GetDueMailboxes
           (processDueMailboxes exec w now st).store w t2)) := by
  refine ⟨?_, ?_, ?_, ?_⟩
  · intro h hex
    simp [processSingleMailbox, h, hex, runRemove, RemoveMailbox]
  · intro h hex
    simp [processSingleMailbox, h, hex]
  · exact foldl_purged_trace exec _ st
  · intro hex hmem
    have hkeep : mb ∈ (processDueMailboxes exec w now st).store :=
      foldl_store_keeps exec mb hex _ st hmem
    refine ⟨hkeep, ?_⟩
    intro hdue hle
    rw [GetDueMailboxes, List.mem_filter]
    refine ⟨hkeep, ?_⟩
    have : now - w * nsPerHour ≤ t2 - w * nsPerHour :=
      sub_le_sub_right hle _
    simp only [decide_eq_true_eq]
    exact le_trans hdue this

theorem cycle_per_entry_outcomes_witness :
    processSingleMailbox (fun _ => false)
        ⟨[⟨"a@b".toList, 0⟩], [], []⟩ ⟨"a@b".toList, 0⟩ =
      ⟨[⟨"a@b".toList, 0⟩], [] ++ ["a@b".toList], []⟩ ∧
    (⟨"a@b".toList, 0⟩ : Mailbox) ∈
      (processDueMailboxes (fun _ => false) 0 0
        ⟨[⟨"a@b".toList, 0⟩], [], []⟩).store :=
  ⟨(cycle_per_entry_outcomes (fun _ => false)
      ⟨[⟨"a@b".toList, 0⟩], [], []⟩ ⟨"a@b".toList, 0⟩ 0 0 1).2.1
      (by decide) rfl,
   ((cycle_per_entry_outcomes (fun _ => false)
      ⟨[⟨"a@b".toList, 0⟩], [], []⟩ ⟨"a@b".toList, 0⟩ 0 0 1).2.2.2
      rfl (by decide)).1⟩

/-- C8 (amended): a successful add rewrites the whole file; when the
sequential rewrite fails after `k` records the persisted file is the
`k`-record truncation of the intended new content — for any failure
point strictly inside the write this differs from the complete new
state (writeAll truncates in place; there is no atomic
rename-into-place). -/
theorem addMailbox_midwrite_truncates (parse : List Char → Option Int)
    (fmt : Int → List Char) (file : List RawRecord) (e : List Char)
    (now : Int) (k : Nat)
    (hfresh : ∀ m ∈ readAll parse file, m.email ≠ e) :
    AddMailboxFile parse fmt file e now =
      Except.ok (writeAll fmt (readAll parse file ++ [⟨e, now⟩])) ∧
    AddMailboxCrash parse fmt file e now k =
      (writeAll fmt (readAll parse file ++ [⟨e, now⟩])).take k ∧
    (k < (readAll parse file).length + 2 →
      AddMailboxCrash parse fmt file e now k ≠
        writeAll fmt (readAll parse file ++ [⟨e, now⟩])) := by
  have hany : ((readAll parse file).any fun m => m.email == e) = false := by
    rw [List.any_eq_false]
    intro m hm
    simpa [beq_iff_eq] using hfresh m hm
  refine ⟨?_, ?_, ?_⟩
  · simp [AddMailboxFile, hany]
  · simp [AddMailboxCrash, hany, writeAllCrash]
  · intro hk heq
    have hlen := congrArg List.length heq
    simp only [AddMailboxCrash, hany, Bool.false_eq_true, if_false,
      writeAllCrash, List.length_take, writeAll, List.length_cons,
      List.length_map, List.length_append, List.length_singleton] at hlen
    omega

theorem addMailbox_midwrite_truncates_witness :
    AddMailboxCrash parseTime fmtTime
        [headerRecord, ["a@x".toList, fmtTime 0],
         ["b@x".toList, fmtTime 1]] ("c@x".toList) 2 2 =
      (writeAll fmtTime
        (readAll parseTime
          [headerRecord, ["a@x".toList, fmtTime 0],
           ["b@x".toList, fmtTime 1]] ++ [⟨"c@x".toList, 2⟩])).take 2 :=
  (addMailbox_midwrite_truncates parseTime fmtTime
    [headerRecord, ["a@x".toList, fmtTime 0], ["b@x".toList, fmtTime 1]]
    ("c@x".toList) 2 2 (by decide)).2.1

/-- C8 counterexample: starting from a file with entries a@x and b@x,
an add of c@x whose write fails after two records leaves the file as
header plus a@x only — a partial state that is neither the complete
prior state nor the complete new state. -/
theorem addMailbox_midwrite_counterexample :
    AddMailboxFile parseTime fmtTime
        [headerRecord, ["a@x".toList, fmtTime 0],
         ["b@x".toList, fmtTime 1]] ("c@x".toList) 2 =
      Except.ok [headerRecord, ["a@x".toList, fmtTime 0],
        ["b@x".toList, fmtTime 1], ["c@x".toList, fmtTime 2]] ∧
    AddMailboxCrash parseTime fmtTime
        [headerRecord, ["a@x".toList, fmtTime 0],
         ["b@x".toList, fmtTime 1]] ("c@x".toList) 2 2 =
      [headerRecord, ["a@x".toList, fmtTime 0]] ∧
    ([headerRecord, ["a@x".toList, fmtTime 0]] : List RawRecord) ≠
      [headerRecord, ["a@x".toList, fmtTime 0],
       ["b@x".toList, fmtTime 1]] ∧
    ([headerRecord, ["a@x".toList, fmtTime 0]] : List RawRecord) ≠
      [headerRecord, ["a@x".toList, fmtTime 0],
       ["b@x".toList, fmtTime 1], ["c@x".toList, fmtTime 2]] :=
  ⟨rfl, rfl, by decide, by decide⟩

theorem validateEmail_accepts_iff_witness :
    validateEmail ("a@b".toList) = ValidateResult.ok ↔
      "a@b".toList ≠ [] ∧ '*' ∉ "a@b".toList ∧ '?' ∉ "a@b".toList ∧
        countChar ("a@b".toList) '@' = 1 ∧
        ∀ c ∈ forbiddenChars, c ∉ "a@b".toList :=
  validateEmail_accepts_iff ("a@b".toList)

/-- A successful csv read returns exactly the file's records. -/
theorem csvReadAll_ok (file records : List RawRecord)
    (h : csvReadAll file = Except.ok records) : records = file := by
  cases file with
  | nil =>
    simp only [csvReadAll, Except.ok.injEq] at h
    exact h.symm
  | cons r0 rest =>
    simp only [csvReadAll] at h
    split at h
    · simp only [Except.ok.injEq] at h
      exact h.symm
    · exact absurd h (by simp)

/-- A successful checked read yields the same records as the unchecked
per-record processing of the whole file. -/
theorem readAllChecked_ok (parse : List Char → Option Int)
    (file : List RawRecord) (ms : List Mailbox)
    (h : readAllChecked parse file = Except.ok ms) :
    ms = readAll parse file := by
  unfold readAllChecked at h
  split at h
  · exact absurd h (by simp)
  · rename_i records hcsv
    have hrec := csvReadAll_ok file records hcsv
    subst hrec
    simp only [Except.ok.injEq] at h
    exact h.symm

/-- C9 (amended): a record whose field count differs from the first
record's (the two-field header, in files the program writes) fails the
whole csv read, so AddMailbox and RemoveMailbox return a storage error
before any rewrite — that malformed record is preserved, not deleted.
Only a record with the header's two-field shape but an unparsable
created_at is silently and permanently dropped, and only by the calls
that reach the rewrite: an AddMailbox that returns Ok, and a
RemoveMailbox whose read succeeds. -/
theorem mutation_malformed_fate (parse : List Char → Option Int)
    (fmt : Int → List Char) (file : List RawRecord) (e : List Char)
    (now : Int) (r : RawRecord) (hr : r ∈ file.drop 1)
    (hfmt : ∀ m ∈ readAll parse file, (parse (fmt m.createdAt)).isSome)
    (hfmtNow : (parse (fmt now)).isSome) :
    (∀ r0 rest, file = r0 :: rest → r.length ≠ r0.length →
       AddMailboxFileChecked parse fmt file e now =
         Except.error StoreError.readFailed ∧
       RemoveMailboxFileChecked parse fmt file e =
         Except.error StoreError.readFailed ∧
       r ∈ (runAddFileChecked parse fmt file e now).drop 1 ∧
       r ∈ (runRemoveFileChecked parse fmt file e).drop 1) ∧
    (∀ a t, r = [a, t] → parse t = none →
       (∀ f2, AddMailboxFileChecked parse fmt file e now = Except.ok f2 →
          r ∉ f2.drop 1) ∧
       (∀ f3, RemoveMailboxFileChecked parse fmt file e = Except.ok f3 →
          r ∉ f3.drop 1)) := by
  constructor
  · intro r0 rest h0 hlen
    subst h0
    have hrf : r ∈ r0 :: rest := List.drop_subset 1 _ hr
    have hall : ((r0 :: rest).all fun r2 => r2.length == r0.length) = false := by
      rw [List.all_eq_false]
      exact ⟨r, hrf, by simp [hlen]⟩
    have hcsv : csvReadAll (r0 :: rest) =
        Except.error CsvError.errFieldCount := by
      simp only [csvReadAll, hall]
      simp
    have hread : readAllChecked parse (r0 :: rest) =
        Except.error CsvError.errFieldCount := by
      simp only [readAllChecked, hcsv]
    have hadd : AddMailboxFileChecked parse fmt (r0 :: rest) e now =
        Except.error StoreError.readFailed := by
      simp only [AddMailboxFileChecked, hread]
    have hrem : RemoveMailboxFileChecked parse fmt (r0 :: rest) e =
        Except.error StoreError.readFailed := by
      simp only [RemoveMailboxFileChecked, hread]
    refine ⟨hadd, hrem, ?_, ?_⟩
    · simp only [runAddFileChecked, hadd]
      exact hr
    · simp only [runRemoveFileChecked, hrem]
      exact hr
  · intro a t hrat hpt
    have key : ∀ ms : List Mailbox,
        (∀ m ∈ ms, (parse (fmt m.createdAt)).isSome) →
        r ∉ ms.map fun m => [m.email, fmt m.createdAt] := by
      intro ms hms hr2
      rcases List.mem_map.mp hr2 with ⟨m, hm, hr3⟩
      rw [hrat] at hr3
      simp only [List.cons.injEq, and_true] at hr3
      rw [← hr3.2] at hpt
      have hsome := hms m hm
      rw [hpt] at hsome
      simp at hsome
    constructor
    · intro f2 hf2
      unfold AddMailboxFileChecked at hf2
      split at hf2
      · exact absurd hf2 (by simp)
      · rename_i ms hrc
        have hms := readAllChecked_ok parse file ms hrc
        subst hms
        split at hf2
        · exact absurd hf2 (by simp)
        · simp only [Except.ok.injEq] at hf2
          rw [← hf2]
          simp only [writeAll, List.drop_succ_cons, List.drop_zero]
          apply key
          intro m hm
          rcases List.mem_append.mp hm with hm2 | hm2
          · exact hfmt m hm2
          · simp only [List.mem_singleton] at hm2
            rw [hm2]
            exact hfmtNow
    · intro f3 hf3
      unfold RemoveMailboxFileChecked at hf3
      split at hf3
      · exact absurd hf3 (by simp)
      · rename_i ms hrc
        have hms := readAllChecked_ok parse file ms hrc
        subst hms
        simp only [Except.ok.injEq] at hf3
        rw [← hf3]
        simp only [writeAll, List.drop_succ_cons, List.drop_zero]
        apply key
        intro m hm
        exact hfmt m (List.mem_filter.mp hm).1

theorem mutation_malformed_fate_witness :
    (AddMailboxFileChecked parseTime fmtTime
        [headerRecord, ["a@x".toList, fmtTime 0], ["b".toList]]
        ("c@x".toList) 7 = Except.error StoreError.readFailed ∧
     RemoveMailboxFileChecked parseTime fmtTime
        [headerRecord, ["a@x".toList, fmtTime 0], ["b".toList]]
        ("c@x".toList) = Except.error StoreError.readFailed ∧
     (["b".toList] : RawRecord) ∈
       (runAddFileChecked parseTime fmtTime
         [headerRecord, ["a@x".toList, fmtTime 0], ["b".toList]]
         ("c@x".toList) 7).drop 1 ∧
     (["b".toList] : RawRecord) ∈
       (runRemoveFileChecked parseTime fmtTime
         [headerRecord, ["a@x".toList, fmtTime 0], ["b".toList]]
         ("c@x".toList)).drop 1) ∧
    (["b@x".toList, "oops".toList] : RawRecord) ∉
      ([headerRecord, ["a@x".toList, fmtTime 0],
        ["c@x".toList, fmtTime 5]] : List RawRecord).drop 1 :=
  ⟨(mutation_malformed_fate parseTime fmtTime
      [headerRecord, ["a@x".toList, fmtTime 0], ["b".toList]]
      ("c@x".toList) 7 ["b".toList] (by decide) (by decide) (by decide)).1
      headerRecord [["a@x".toList, fmtTime 0], ["b".toList]] rfl (by decide),
   ((mutation_malformed_fate parseTime fmtTime
      [headerRecord, ["a@x".toList, fmtTime 0],
       ["b@x".toList, "oops".toList]]
      ("c@x".toList) 5 ["b@x".toList, "oops".toList] (by decide)
      (by decide) (by decide)).2 ("b@x".toList) ("oops".toList) rfl
      (by decide)).1
     [headerRecord, ["a@x".toList, fmtTime 0], ["c@x".toList, fmtTime 5]]
     rfl⟩

/-- C9 counterexample: an AddMailbox call on a file holding a one-field
record fails the whole csv read (its field count differs from the
header's) and returns a storage error before any rewrite, so the
malformed record is preserved, not deleted; likewise a duplicate
AddMailbox on a consistently shaped file returns before the rewrite and
preserves a record whose created_at is unparsable. -/
theorem mutation_preserves_malformed_counterexample :
    AddMailboxFileChecked parseTime fmtTime
        [headerRecord, ["a@x".toList, fmtTime 0], ["b".toList]]
        ("c@x".toList) 7 = Except.error StoreError.readFailed ∧
    (["b".toList] : RawRecord) ∈
      (runAddFileChecked parseTime fmtTime
        [headerRecord, ["a@x".toList, fmtTime 0], ["b".toList]]
        ("c@x".toList) 7).drop 1 ∧
    AddMailboxFileChecked parseTime fmtTime
        [headerRecord, ["a@x".toList, fmtTime 0],
         ["b@x".toList, "oops".toList]] ("a@x".toList) 5 =
      Except.error StoreError.alreadyExists ∧
    (["b@x".toList, "oops".toList] : RawRecord) ∈
      (runAddFileChecked parseTime fmtTime
        [headerRecord, ["a@x".toList, fmtTime 0],
         ["b@x".toList, "oops".toList]] ("a@x".toList) 5).drop 1 ∧
    parseTime ("oops".toList) = none :=
  ⟨rfl, by decide, rfl, by decide, rfl⟩
